import Mathlib

/-!
Shallow embedding of the `Crawler` class from `src/crawler.ts` (bun-scrapy).

The crawler is an event-loop program: `checkQueue` (the drain loop) is an
async method that may be invoked concurrently from `start`, `addTask`,
`resume` and every worker's `.finally` callback, each invocation suspending
at `await beforeRequestHandler(url)` and at `await sleep(1000)`.  We model
this as a small-step transition system: a global state holds the task queue,
the lifecycle flags, the `activeRequests` counter, the multiset of suspended
`checkQueue` invocations (coroutines), the outstanding `fetchPage` network
calls (workers) and the pending `setTimeout` retry timers.  A scheduler
(a list of `Act`s) picks which enabled transition fires next and supplies
the outcome of each network call; hook invocations are recorded in an event
log.  The model admits every interleaving the JavaScript event loop admits
(it is slightly more permissive, splitting some synchronous continuations,
which only adds behaviours - safety theorems proved over the model hold a
fortiori of the real code, and the counterexample schedules used below
correspond to real event-loop traces).

The retry chain of `fetchPage` (which is sequential in time: attempt,
1000 ms timer, next attempt, ...) is additionally modelled as a flattened
recursive function `fetchPageRun`, and the pure options assembly inside
`fetchUrl` as `buildOptions`.
-/

/-- Modelled from the spec: the helper `unique` is imported from `./utils`,
which is not part of the provided sources.  Per the spec, dedup preserves
the order of first insertion across the whole pending queue and silently
drops duplicates (new unique entries at the tail). -/
def insertUnique (q : List String) (u : String) : List String :=
  if u ∈ q then q else q ++ [u]

/-- Modelled from the spec: first-insertion-order deduplication of a list,
as performed by `unique` from `./utils` over the whole queue. -/
def unique (xs : List String) : List String :=
  xs.foldl insertUnique []

/-- Observable events: hook invocations, log lines and scheduling actions of
the crawler. -/
inductive Event where
  | fetchStart (url : String)
  | itemCall (url : String)
  | errorCall (url : String)
  | unexpectedErrorLog (url : String)
  | blocked (url : String)
  | endCall
  | retrySched (url : String) (delayMs : Nat)
deriving DecidableEq

/-- A suspended `checkQueue` invocation: about to evaluate the while guard,
suspended at `await beforeRequestHandler(url)`, or sleeping after `end()`. -/
inductive DrainCo where
  | guard
  | gate (url : String)
  | sleeping
deriving DecidableEq

/-- One outstanding `fetchPage` network call.  `slot = true` when it was
dispatched by `checkQueue` (its `.finally` decrements `activeRequests` and
re-invokes the drain loop); `slot = false` for a detached retry launched by
`setTimeout`, which has no `.finally` attached. -/
structure Worker where
  url : String
  retriesLeft : Nat
  slot : Bool
deriving DecidableEq

/-- Result of one attempt, as observed in `fetchPage`: the fetch succeeded
(and the item processor may throw, with the thrown value an `Error` or not),
or the fetch failed (with the thrown value an `Error` or not).  Note that
`fetchUrl` wraps transport and status failures, so fetch failures are
normally `Error` instances. -/
inductive FetchOutcome where
  | ok (procThrow : Option Bool)
  | fail (isError : Bool)
deriving DecidableEq

/-- Global state of one `Crawler` instance plus its pending asynchronous
activity and the log of observable events. -/
structure GState where
  taskQueue : List String
  active : Bool
  paused : Bool
  activeRequests : Nat
  drains : List DrainCo
  workers : List Worker
  timers : List (String × Nat)
  events : List Event
deriving DecidableEq

/-- Configuration read by the drain loop and the workers: `concurrency`
(constructor argument, default 1), `retries` (`setRetries`, default 0) and
the pre-request gate (`beforeRequest`, default always `true`); we record the
boolean the gate eventually resolves to. -/
structure Config where
  concurrency : Nat
  retries : Nat
  gate : String → Bool

/-- Scheduler choices: advance a suspended drain coroutine, resolve an
outstanding network call with a given outcome, fire a pending retry timer,
or perform one of the public methods. -/
inductive Act where
  | drain (i : Nat)
  | complete (j : Nat) (oc : FetchOutcome)
  | fire (k : Nat)
  | addTask (url : String)
  | start
  | stop
  | pause
  | resume
deriving DecidableEq

/-- The while condition of `checkQueue`:
`this.active && !this.paused && this.activeRequests < this.concurrency && this.taskQueue.length > 0`. -/
def guardHolds (cfg : Config) (s : GState) : Bool :=
  s.active && !s.paused && decide (s.activeRequests < cfg.concurrency)
    && !s.taskQueue.isEmpty

/-- One step of a suspended `checkQueue` invocation (index `i`):
re-evaluate the guard and pop (exiting if the guard fails), resolve the
awaited gate (dispatching a worker or logging the block), or wake from the
1000 ms sleep that follows `end()`.  A falsy popped url (the empty string)
takes the `else` branch that invokes `end()` and sleeps. -/
def checkQueueStep (cfg : Config) (s : GState) (i : Nat) : GState :=
  match s.drains.get? i with
  | none => s
  | some DrainCo.sleeping => { s with drains := s.drains.set i DrainCo.guard }
  | some (DrainCo.gate u) =>
      if cfg.gate u then
        { s with activeRequests := s.activeRequests + 1,
                 workers := s.workers ++ [{ url := u, retriesLeft := cfg.retries, slot := true }],
                 drains := s.drains.set i DrainCo.guard,
                 events := s.events ++ [Event.fetchStart u] }
      else
        { s with drains := s.drains.set i DrainCo.guard,
                 events := s.events ++ [Event.blocked u] }
  | some DrainCo.guard =>
      if guardHolds cfg s then
        match s.taskQueue with
        | [] => { s with drains := s.drains.eraseIdx i }
        | u :: rest =>
            if u = "" then
              { s with taskQueue := rest,
                       drains := s.drains.set i DrainCo.sleeping,
                       events := s.events ++ [Event.endCall] }
            else
              { s with taskQueue := rest,
                       drains := s.drains.set i (DrainCo.gate u) }
      else
        { s with drains := s.drains.eraseIdx i }

/-- The catch block of `fetchPage`: with retry budget left, schedule
`fetchPage(url, retries - 1)` via `setTimeout(..., 1000)`; otherwise invoke
the error handler if the thrown value is an `Error`, else log. Returns the
emitted events and the timer to register, if any. -/
def failHandling (u : String) (retriesLeft : Nat) (isErr : Bool) :
    List Event × Option (String × Nat) :=
  match retriesLeft with
  | 0 => (if isErr then [Event.errorCall u] else [Event.unexpectedErrorLog u], none)
  | r + 1 => ([Event.retrySched u 1000], some (u, r))

/-- Events and pending timer produced when an outstanding `fetchPage` call
resolves: the try block invokes the item processor on success (whose throw
is caught by the same catch as a fetch failure), and the catch block runs
`failHandling`. -/
def completeEvents (w : Worker) (oc : FetchOutcome) :
    List Event × Option (String × Nat) :=
  match oc with
  | FetchOutcome.ok none => ([Event.itemCall w.url], none)
  | FetchOutcome.ok (some isErr) =>
      let p := failHandling w.url w.retriesLeft isErr
      (Event.itemCall w.url :: p.1, p.2)
  | FetchOutcome.fail isErr => failHandling w.url w.retriesLeft isErr

/-- Resolution of outstanding network call `j` with outcome `oc`: run the
tail of `fetchPage`, then (only for slot-holding workers, whose promise has
`.finally` attached by `checkQueue`) decrement `activeRequests` and, if
still active and unpaused, re-invoke the drain loop. -/
def completeStep (s : GState) (j : Nat) (oc : FetchOutcome) : GState :=
  match s.workers.get? j with
  | none => s
  | some w =>
      let p := completeEvents w oc
      let s1 : GState :=
        { s with workers := s.workers.eraseIdx j,
                 events := s.events ++ p.1,
                 timers := s.timers ++ (match p.2 with
                   | none => []
                   | some t => [t]) }
      if w.slot then
        let s2 : GState := { s1 with activeRequests := s1.activeRequests - 1 }
        if s2.active && !s2.paused then
          { s2 with drains := s2.drains ++ [DrainCo.guard] }
        else s2
      else s1

/-- A pending `setTimeout` retry fires: it calls `fetchPage(url, r)` with no
`.finally` attached, i.e. it launches a detached (`slot = false`) network
call. -/
def fireStep (s : GState) (k : Nat) : GState :=
  match s.timers.get? k with
  | none => s
  | some t =>
      { s with timers := s.timers.eraseIdx k,
               workers := s.workers ++ [{ url := t.1, retriesLeft := t.2, slot := false }],
               events := s.events ++ [Event.fetchStart t.1] }

/-- One transition of the whole system.  The public methods are translated
directly from `crawler.ts`: `addTask` pushes and dedups the queue and, when
active, invokes `checkQueue`; `start` is a no-op when `active`, else sets
`active`, clears `paused` and invokes `checkQueue`; `stop` clears `active`;
`pause` sets `paused`; `resume` clears `paused` and invokes `checkQueue`
only when active and paused. -/
def step (cfg : Config) (s : GState) : Act → GState
  | Act.drain i => checkQueueStep cfg s i
  | Act.complete j oc => completeStep s j oc
  | Act.fire k => fireStep s k
  | Act.addTask u =>
      let s1 : GState := { s with taskQueue := unique (s.taskQueue ++ [u]) }
      if s1.active then { s1 with drains := s1.drains ++ [DrainCo.guard] } else s1
  | Act.start =>
      if s.active then s
      else { s with active := true, paused := false,
                    drains := s.drains ++ [DrainCo.guard] }
  | Act.stop => { s with active := false }
  | Act.pause => { s with paused := true }
  | Act.resume =>
      if s.active && s.paused then
        { s with paused := false, drains := s.drains ++ [DrainCo.guard] }
      else s

/-- Run a schedule from a given state. -/
def runFrom (cfg : Config) (s : GState) : List Act → GState
  | [] => s
  | a :: rest => runFrom cfg (step cfg s a) rest

/-- The state of a freshly constructed `Crawler`. -/
def initState : GState :=
  { taskQueue := [], active := false, paused := false, activeRequests := 0,
    drains := [], workers := [], timers := [], events := [] }

/-- Run a schedule from the freshly constructed crawler. -/
def run (cfg : Config) (acts : List Act) : GState :=
  runFrom cfg initState acts

/-- `getTaskCount()` returns `this.taskQueue.length`. -/
def getTaskCount (s : GState) : Nat :=
  s.taskQueue.length

/-- Constructor defaults: concurrency 1, retries 0, gate always `true`. -/
def defaultConfig : Config :=
  { concurrency := 1, retries := 0, gate := fun _ => true }

/-- Number of occurrences of an event in a log. -/
def countEv (e : Event) (evs : List Event) : Nat :=
  (evs.filter (fun x => x = e)).length

/-- Network calls plus item-processor plus error-handler invocations for a
given identifier. -/
def touchCount (u : String) (evs : List Event) : Nat :=
  countEv (Event.fetchStart u) evs + countEv (Event.itemCall u) evs
    + countEv (Event.errorCall u) evs

/-- Is this coroutine suspended at the pre-request gate (identifier already
popped, slot not yet taken)? -/
def isGate : DrainCo → Bool
  | DrainCo.gate _ => true
  | _ => false

/-- Number of `checkQueue` invocations currently suspended at the
pre-request gate. -/
def gateCount (s : GState) : Nat :=
  s.drains.countP isGate

/-- Safety invariant for the amended C2: the counter is within the limit,
and strictly below it whenever some invocation is suspended at the gate
(such an invocation passed the guard and will increment on resumption). -/
def InvBound (cfg : Config) (s : GState) : Prop :=
  s.activeRequests ≤ cfg.concurrency
    ∧ (1 ≤ gateCount s → s.activeRequests < cfg.concurrency)

/-- Identifier `u` pending in the queue of a paused crawler, with no
asynchronous activity for `u` already underway. -/
def PausedSafe (u : String) (s : GState) : Prop :=
  s.paused = true ∧ u ∈ s.taskQueue
    ∧ (∀ c ∈ s.drains, c ≠ DrainCo.gate u)
    ∧ (∀ w ∈ s.workers, w.url ≠ u)
    ∧ (∀ t ∈ s.timers, t.1 ≠ u)

/-- No outstanding network call and no pending retry timer for `u`. -/
def NoJobFor (u : String) (s : GState) : Prop :=
  (∀ w ∈ s.workers, w.url ≠ u) ∧ (∀ t ∈ s.timers, t.1 ≠ u)

/-- The spec's lifecycle states.  `Idle` (never started) and `Stopped` leave
identical object state (`active = false`), so they are one classification
here. -/
inductive RunState where
  | stopped
  | running
  | paused
deriving DecidableEq

/-- Classification of the lifecycle flags. -/
def runStateOf (s : GState) : RunState :=
  if s.active then (if s.paused then RunState.paused else RunState.running)
  else RunState.stopped

/-- The sequential unfolding (in time) of one `fetchPage(url, retries)` call
together with the detached retry chain it spawns: each attempt performs a
network call, on success invokes the item processor (which may itself throw,
caught by the same catch block), and on any caught throw either schedules
the next attempt after 1000 ms or, with budget 0, invokes the error handler
(for `Error` values) or logs.  `res n` is the outcome of attempt number `n`. -/
def fetchPageRun (u : String) (res : Nat → FetchOutcome) :
    Nat → Nat → List Event
  | 0, attempt =>
      Event.fetchStart u ::
        (match res attempt with
        | FetchOutcome.ok none => [Event.itemCall u]
        | FetchOutcome.ok (some true) => [Event.itemCall u, Event.errorCall u]
        | FetchOutcome.ok (some false) => [Event.itemCall u, Event.unexpectedErrorLog u]
        | FetchOutcome.fail true => [Event.errorCall u]
        | FetchOutcome.fail false => [Event.unexpectedErrorLog u])
  | r + 1, attempt =>
      Event.fetchStart u ::
        (match res attempt with
        | FetchOutcome.ok none => [Event.itemCall u]
        | FetchOutcome.ok (some _) =>
            Event.itemCall u :: Event.retrySched u 1000
              :: fetchPageRun u res r (attempt + 1)
        | FetchOutcome.fail _ =>
            Event.retrySched u 1000 :: fetchPageRun u res r (attempt + 1))

/-- The `string | string[]` typed `proxy` field. -/
inductive ProxyCfg where
  | str (s : String)
  | list (l : List String)

/-- The request descriptor assembled by `fetchUrl` before calling `fetch`. -/
structure RequestOptions where
  method : String
  headers : String → Option String
  proxy : Option String

/-- The pure options assembly at the top of `fetchUrl`: method GET, headers
the spread of the configured mapping with a `Cookie` key set to the cookie
string, and the proxy set from the scalar (when truthy, i.e. nonempty) or
from the list at the random index (JavaScript: `Math.floor(Math.random() *
length)`) when that element is truthy. -/
def buildOptions (hdrs : String → Option String) (cookies : String)
    (proxy : ProxyCfg) (randIdx : Nat) : RequestOptions :=
  let merged : String → Option String :=
    fun k => if k = "Cookie" then some cookies else hdrs k
  let base : RequestOptions := { method := "GET", headers := merged, proxy := none }
  match proxy with
  | ProxyCfg.str a => if a = "" then base else { base with proxy := some a }
  | ProxyCfg.list l =>
      match l[randIdx]? with
      | some p => if p = "" then base else { base with proxy := some p }
      | none => base

/-- Gate with identifier "x" vetoed, all others allowed. -/
def blockConfig : Config :=
  { concurrency := 1, retries := 0, gate := fun v => !(v == "x") }

/-- Configuration with one retry. -/
def retryConfig : Config :=
  { concurrency := 1, retries := 1, gate := fun _ => true }

/-- A state with one slot-holding worker for "a" carrying retry budget 1. -/
def retryState : GState :=
  run retryConfig [Act.addTask "a", Act.start, Act.drain 0, Act.drain 0]

/-- A state with a drain invocation suspended at the gate for the vetoed
identifier "x". -/
def blockState : GState :=
  run blockConfig [Act.addTask "x", Act.start, Act.drain 0]

/-- A paused crawler with identifier "a" appended while paused. -/
def pausedState : GState :=
  run defaultConfig [Act.start, Act.pause, Act.addTask "a"]

theorem countEv_append (e : Event) (l1 l2 : List Event) :
    countEv e (l1 ++ l2) = countEv e l1 + countEv e l2 := by
  simp [countEv, List.filter_append]

theorem countEv_cons_ne (e x : Event) (l : List Event) (h : x ≠ e) :
    countEv e (x :: l) = countEv e l := by
  simp [countEv, List.filter_cons, h]

theorem countEv_cons_self (e : Event) (l : List Event) :
    countEv e (e :: l) = countEv e l + 1 := by
  simp [countEv, List.filter_cons]

theorem countEv_nil (e : Event) : countEv e [] = 0 := rfl

theorem touchCount_append (u : String) (l1 l2 : List Event) :
    touchCount u (l1 ++ l2) = touchCount u l1 + touchCount u l2 := by
  simp [touchCount, countEv_append]
  omega

theorem countP_set_eq {α : Type} (p : α → Bool) (l : List α) :
    ∀ (i : Nat) (v w : α), l.get? i = some w →
      (l.set i v).countP p + (if p w then 1 else 0)
        = l.countP p + (if p v then 1 else 0) := by
  induction l with
  | nil => intro i v w h; simp at h
  | cons x xs ih =>
      intro i v w h
      cases i with
      | zero =>
          simp only [List.get?] at h
          injection h with h
          subst h
          simp only [List.set, List.countP_cons]
          omega
      | succ n =>
          simp only [List.get?] at h
          have := ih n v w h
          simp only [List.set, List.countP_cons]
          omega

theorem countP_eraseIdx_eq {α : Type} (p : α → Bool) (l : List α) :
    ∀ (i : Nat) (w : α), l.get? i = some w →
      (l.eraseIdx i).countP p + (if p w then 1 else 0) = l.countP p := by
  induction l with
  | nil => intro i w h; simp at h
  | cons x xs ih =>
      intro i w h
      cases i with
      | zero =>
          simp only [List.get?] at h
          injection h with h
          subst h
          simp only [List.eraseIdx, List.countP_cons]
      | succ n =>
          simp only [List.get?] at h
          have := ih n w h
          simp only [List.eraseIdx, List.countP_cons]
          omega

theorem mem_foldl_insertUnique (xs : List String) :
    ∀ (acc : List String) (a : String),
      a ∈ xs.foldl insertUnique acc ↔ a ∈ acc ∨ a ∈ xs := by
  induction xs with
  | nil => intro acc a; simp
  | cons x xs ih =>
      intro acc a
      rw [List.foldl_cons, ih]
      unfold insertUnique
      by_cases hx : x ∈ acc
      · rw [if_pos hx]
        simp only [List.mem_cons]
        constructor
        · rintro (h | h)
          · exact Or.inl h
          · exact Or.inr (Or.inr h)
        · rintro (h | h | h)
          · exact Or.inl h
          · exact Or.inl (h ▸ hx)
          · exact Or.inr h
      · rw [if_neg hx]
        simp only [List.mem_append, List.mem_singleton, List.mem_cons]
        tauto

theorem mem_unique (xs : List String) (a : String) :
    a ∈ unique xs ↔ a ∈ xs := by
  rw [unique, mem_foldl_insertUnique]
  simp

theorem nodup_insertUnique (q : List String) (u : String) (h : q.Nodup) :
    (insertUnique q u).Nodup := by
  unfold insertUnique
  split
  · exact h
  · rw [List.nodup_append]
    refine ⟨h, List.nodup_singleton u, ?_⟩
    intro a ha hb
    rw [List.mem_singleton] at hb
    subst hb
    exact absurd ha (by assumption)

theorem nodup_foldl_insertUnique (xs : List String) :
    ∀ acc : List String, acc.Nodup → (xs.foldl insertUnique acc).Nodup := by
  induction xs with
  | nil => intro acc h; simpa using h
  | cons x xs ih =>
      intro acc h
      rw [List.foldl_cons]
      exact ih _ (nodup_insertUnique acc x h)

theorem nodup_unique (xs : List String) : (unique xs).Nodup :=
  nodup_foldl_insertUnique xs [] List.nodup_nil

theorem foldl_insertUnique_of_nodup (xs : List String) :
    ∀ acc : List String, (acc ++ xs).Nodup → xs.foldl insertUnique acc = acc ++ xs := by
  induction xs with
  | nil => intro acc h; simp
  | cons x xs ih =>
      intro acc h
      have hx : x ∉ acc := by
        intro hmem
        exact (List.disjoint_of_nodup_append h) hmem (List.mem_cons_self x xs)
      have hins : insertUnique acc x = acc ++ [x] := by
        simp [insertUnique, hx]
      rw [List.foldl_cons, hins]
      have h2 : ((acc ++ [x]) ++ xs).Nodup := by
        have hap : (acc ++ [x]) ++ xs = acc ++ (x :: xs) := by simp
        rw [hap]
        exact h
      rw [ih (acc ++ [x]) h2]
      simp

theorem unique_of_nodup (xs : List String) (h : xs.Nodup) : unique xs = xs := by
  have := foldl_insertUnique_of_nodup xs [] (by simpa using h)
  simpa [unique] using this

theorem unique_idem (xs : List String) : unique (unique xs) = unique xs :=
  unique_of_nodup _ (nodup_unique xs)

theorem unique_append_singleton (xs : List String) (u : String) :
    unique (xs ++ [u]) = insertUnique (unique xs) u := by
  rw [unique, List.foldl_append]
  rfl

theorem unique_append_ite (xs : List String) (u : String) :
    unique (xs ++ [u]) = if u ∈ xs then unique xs else unique xs ++ [u] := by
  rw [unique_append_singleton]
  unfold insertUnique
  by_cases h : u ∈ xs
  · rw [if_pos ((mem_unique xs u).2 h), if_pos h]
  · rw [if_neg (fun hc => h ((mem_unique xs u).1 hc)), if_neg h]

theorem sublist_foldl_insertUnique (xs : List String) :
    ∀ acc : List String, ∃ ys : List String,
      xs.foldl insertUnique acc = acc ++ ys ∧ List.Sublist ys xs := by
  induction xs with
  | nil => intro acc; exact ⟨[], by simp, List.Sublist.refl []⟩
  | cons x xs ih =>
      intro acc
      rw [List.foldl_cons]
      by_cases hx : x ∈ acc
      · rw [show insertUnique acc x = acc from by simp [insertUnique, hx]]
        obtain ⟨ys, h1, h2⟩ := ih acc
        exact ⟨ys, h1, h2.cons x⟩
      · rw [show insertUnique acc x = acc ++ [x] from by simp [insertUnique, hx]]
        obtain ⟨ys, h1, h2⟩ := ih (acc ++ [x])
        refine ⟨x :: ys, ?_, h2.cons₂ x⟩
        rw [h1]
        simp

theorem unique_sublist (xs : List String) : List.Sublist (unique xs) xs := by
  obtain ⟨ys, h1, h2⟩ := sublist_foldl_insertUnique xs []
  rw [unique, h1]
  exact h2

theorem foldl_addTask_eq_unique (urls : List String) :
    ∀ p q : List String, q = unique p →
      urls.foldl (fun q u => unique (q ++ [u])) q = unique (p ++ urls) := by
  induction urls with
  | nil => intro p q h; simp [h]
  | cons u us ih =>
      intro p q h
      rw [List.foldl_cons]
      have h1 : unique (q ++ [u]) = unique (p ++ [u]) := by
        rw [h, unique_append_singleton, unique_append_singleton, unique_idem]
      have h2 := ih (p ++ [u]) (unique (q ++ [u])) (by rw [h1])
      rw [h2]
      congr 1
      simp

theorem taskQueue_step_addTask (cfg : Config) (s : GState) (u : String) :
    (step cfg s (Act.addTask u)).taskQueue = unique (s.taskQueue ++ [u]) := by
  simp only [step]
  split <;> rfl

theorem taskQueue_addTasks (cfg : Config) (urls : List String) :
    ∀ s : GState, (runFrom cfg s (urls.map Act.addTask)).taskQueue
      = urls.foldl (fun q u => unique (q ++ [u])) s.taskQueue := by
  induction urls with
  | nil => intro s; simp [runFrom]
  | cons u us ih =>
      intro s
      rw [List.map_cons, runFrom, List.foldl_cons, ih]
      rw [taskQueue_step_addTask]

theorem unique_toFinset (xs : List String) :
    (unique xs).toFinset = xs.toFinset := by
  apply Finset.ext
  intro a
  simp [List.mem_toFinset, mem_unique]

theorem unique_length_eq_card (xs : List String) :
    (unique xs).length = xs.toFinset.card := by
  rw [← unique_toFinset]
  exact (List.toFinset_card_of_nodup (nodup_unique xs)).symm

/-- C5: for every sequence of `addTask` calls (duplicates included), the
pending queue afterwards is exactly the first-insertion-order dedup of the
appended identifiers: it is duplicate-free, a subsequence of the call
sequence (relative order preserved), contains an identifier iff some call
appended it, grows by appending a not-yet-seen identifier at the tail and
silently drops a duplicate, and `getTaskCount()` returns the number of
distinct identifiers. -/
theorem C5_addTask_dedup (cfg : Config) (urls : List String) :
    (run cfg (urls.map Act.addTask)).taskQueue = unique urls
    ∧ (unique urls).Nodup
    ∧ List.Sublist (unique urls) urls
    ∧ (∀ u : String, u ∈ unique urls ↔ u ∈ urls)
    ∧ (∀ (xs : List String) (u : String),
        unique (xs ++ [u]) = if u ∈ xs then unique xs else unique xs ++ [u])
    ∧ getTaskCount (run cfg (urls.map Act.addTask)) = urls.toFinset.card := by
  have hq : (run cfg (urls.map Act.addTask)).taskQueue = unique urls := by
    rw [run, taskQueue_addTasks]
    have := foldl_addTask_eq_unique urls [] initState.taskQueue rfl
    simpa [initState] using this
  refine ⟨hq, nodup_unique urls, unique_sublist urls, mem_unique urls,
    unique_append_ite, ?_⟩
  rw [getTaskCount, hq]
  exact unique_length_eq_card urls

/-- C1: evaluation of the code at the failing input.  A crawler started on
an empty queue performs no events at all: the `while` guard of `checkQueue`
requires `taskQueue.length > 0`, so the loop body containing `this.end()`
is never entered, the single drain invocation terminates, and the system is
quiescent (no coroutine, worker or timer remains), so the end-of-queue
handler is never invoked - contradicting the claimed at-least-once-per-
second polling. -/
theorem C1_start_empty_queue_no_end_call :
    (run defaultConfig [Act.start, Act.drain 0, Act.drain 0]).events = []
    ∧ (run defaultConfig [Act.start, Act.drain 0, Act.drain 0]).drains = []
    ∧ (run defaultConfig [Act.start, Act.drain 0, Act.drain 0]).workers = []
    ∧ (run defaultConfig [Act.start, Act.drain 0, Act.drain 0]).timers = [] := by
  refine ⟨rfl, rfl, rfl, rfl⟩

/-- C2 counterexample: with concurrency limit 1 and an always-true gate,
the event-loop schedule start, addTask during the first invocation's gate
suspension, then resolution of both gates, reaches a state with two
non-retry network calls outstanding (`activeRequests = 2`), exceeding the
limit.  Each listed action corresponds to one synchronous segment of the
real JavaScript execution. -/
theorem C2_counterexample_two_outstanding :
    defaultConfig.concurrency = 1
    ∧ (run defaultConfig [Act.addTask "a", Act.start, Act.drain 0, Act.addTask "b",
        Act.drain 1, Act.drain 0, Act.drain 1]).activeRequests = 2
    ∧ ((run defaultConfig [Act.addTask "a", Act.start, Act.drain 0, Act.addTask "b",
        Act.drain 1, Act.drain 0, Act.drain 1]).workers.filter
          (fun w => w.slot)).length = 2 := by
  refine ⟨rfl, ?_, ?_⟩ <;> decide

/-- C3: for every retry count N set via `setRetries` and every task whose
fetch attempt always fails with an `Error`, the worker chain schedules
exactly N retries, each via `setTimeout(..., 1000)`, and the error handler
is invoked exactly once, as the final event of the chain (i.e. after the
N-th retry's attempt fails). -/
theorem C3_retries_exhausted (u : String) (N attempt : Nat)
    (res : Nat → FetchOutcome) (h : ∀ n, res n = FetchOutcome.fail true) :
    countEv (Event.retrySched u 1000) (fetchPageRun u res N attempt) = N
    ∧ countEv (Event.errorCall u) (fetchPageRun u res N attempt) = 1
    ∧ ∃ pre : List Event,
        fetchPageRun u res N attempt = pre ++ [Event.errorCall u] := by
  induction N generalizing attempt with
  | zero =>
      rw [fetchPageRun, h attempt]
      refine ⟨?_, ?_, ⟨[Event.fetchStart u], rfl⟩⟩
      · rw [countEv_cons_ne _ _ _ (by simp), countEv_cons_ne _ _ _ (by simp)]
        rfl
      · rw [countEv_cons_ne _ _ _ (by simp), countEv_cons_self]
        rfl
  | succ n ih =>
      rw [fetchPageRun, h attempt]
      obtain ⟨ih1, ih2, pre, ih3⟩ := ih (attempt + 1)
      refine ⟨?_, ?_, ⟨Event.fetchStart u :: Event.retrySched u 1000 :: pre, ?_⟩⟩
      · rw [countEv_cons_ne _ _ _ (by simp), countEv_cons_self, ih1]
      · rw [countEv_cons_ne _ _ _ (by simp), countEv_cons_ne _ _ _ (by simp), ih2]
      · rw [ih3]
        rfl

/-- C3 witness: with N = 2 and an always-failing fetch, exactly 2 retries
are scheduled and the error handler fires exactly once, last. -/
theorem C3_witness :
    countEv (Event.retrySched "a" 1000)
        (fetchPageRun "a" (fun _ => FetchOutcome.fail true) 2 0) = 2
    ∧ countEv (Event.errorCall "a")
        (fetchPageRun "a" (fun _ => FetchOutcome.fail true) 2 0) = 1
    ∧ ∃ pre : List Event,
        fetchPageRun "a" (fun _ => FetchOutcome.fail true) 2 0
          = pre ++ [Event.errorCall "a"] :=
  C3_retries_exhausted "a" 2 0 (fun _ => FetchOutcome.fail true) (fun _ => rfl)

/-- C10: if the item processor throws (an `Error`) on every attempt while
the fetch itself always succeeds, the worker chain treats it exactly like a
fetch failure: with retry budget N the whole task is re-fetched N further
times (N + 1 network calls in total, each followed by an item-processor
invocation), each re-attempt is scheduled after the fixed 1000 ms backoff,
and the error handler is invoked exactly once, as the final event - so a
successfully fetched page is fetched again and ends in an error-handler call
solely because the processing hook threw. -/
theorem C10_processor_throw_retries (u : String) (N attempt : Nat)
    (res : Nat → FetchOutcome)
    (h : ∀ n, res n = FetchOutcome.ok (some true)) :
    countEv (Event.fetchStart u) (fetchPageRun u res N attempt) = N + 1
    ∧ countEv (Event.itemCall u) (fetchPageRun u res N attempt) = N + 1
    ∧ countEv (Event.retrySched u 1000) (fetchPageRun u res N attempt) = N
    ∧ countEv (Event.errorCall u) (fetchPageRun u res N attempt) = 1
    ∧ ∃ pre : List Event,
        fetchPageRun u res N attempt = pre ++ [Event.errorCall u] := by
  induction N generalizing attempt with
  | zero =>
      rw [fetchPageRun, h attempt]
      refine ⟨?_, ?_, ?_, ?_, ⟨[Event.fetchStart u, Event.itemCall u], rfl⟩⟩
      · rw [countEv_cons_self, countEv_cons_ne _ _ _ (by simp),
          countEv_cons_ne _ _ _ (by simp)]
        rfl
      · rw [countEv_cons_ne _ _ _ (by simp), countEv_cons_self,
          countEv_cons_ne _ _ _ (by simp)]
        rfl
      · rw [countEv_cons_ne _ _ _ (by simp), countEv_cons_ne _ _ _ (by simp),
          countEv_cons_ne _ _ _ (by simp)]
        rfl
      · rw [countEv_cons_ne _ _ _ (by simp), countEv_cons_ne _ _ _ (by simp),
          countEv_cons_self]
        rfl
  | succ n ih =>
      rw [fetchPageRun, h attempt]
      obtain ⟨ih1, ih2, ih3, ih4, pre, ih5⟩ := ih (attempt + 1)
      refine ⟨?_, ?_, ?_, ?_,
        ⟨Event.fetchStart u :: Event.itemCall u :: Event.retrySched u 1000 :: pre, ?_⟩⟩
      · rw [countEv_cons_self, countEv_cons_ne _ _ _ (by simp),
          countEv_cons_ne _ _ _ (by simp), ih1]
      · rw [countEv_cons_ne _ _ _ (by simp), countEv_cons_self,
          countEv_cons_ne _ _ _ (by simp), ih2]
      · rw [countEv_cons_ne _ _ _ (by simp), countEv_cons_ne _ _ _ (by simp),
          countEv_cons_self, ih3]
      · rw [countEv_cons_ne _ _ _ (by simp), countEv_cons_ne _ _ _ (by simp),
          countEv_cons_ne _ _ _ (by simp), ih4]
      · rw [ih5]
        rfl

/-- C10 witness: one retry, fetch always succeeds, processor always throws:
2 fetches, 2 item-processor invocations, 1 scheduled re-attempt, 1 final
error-handler invocation. -/
theorem C10_witness :
    countEv (Event.fetchStart "a")
        (fetchPageRun "a" (fun _ => FetchOutcome.ok (some true)) 1 0) = 2
    ∧ countEv (Event.itemCall "a")
        (fetchPageRun "a" (fun _ => FetchOutcome.ok (some true)) 1 0) = 2
    ∧ countEv (Event.retrySched "a" 1000)
        (fetchPageRun "a" (fun _ => FetchOutcome.ok (some true)) 1 0) = 1
    ∧ countEv (Event.errorCall "a")
        (fetchPageRun "a" (fun _ => FetchOutcome.ok (some true)) 1 0) = 1
    ∧ ∃ pre : List Event,
        fetchPageRun "a" (fun _ => FetchOutcome.ok (some true)) 1 0
          = pre ++ [Event.errorCall "a"] :=
  C10_processor_throw_retries "a" 1 0 (fun _ => FetchOutcome.ok (some true))
    (fun _ => rfl)

/-- C8: the lifecycle state machine.  `start()` moves any non-active state
(`Idle`/`Stopped`) to `Running` (`active = true`, `paused = false`) and is a
logged no-op otherwise (i.e. when `Running` or `Paused`); `stop()` moves any
state to `Stopped` without cancelling outstanding network calls or pending
retry timers; `pause()` moves `Running` to `Paused`; `resume()` moves
`Paused` to `Running` and re-invokes the drain loop, and is a logged no-op
in every other state. -/
theorem C8_lifecycle (cfg : Config) (s : GState) :
    (runStateOf s = RunState.stopped →
        runStateOf (step cfg s Act.start) = RunState.running
        ∧ (step cfg s Act.start).active = true
        ∧ (step cfg s Act.start).paused = false)
    ∧ (runStateOf s ≠ RunState.stopped → step cfg s Act.start = s)
    ∧ runStateOf (step cfg s Act.stop) = RunState.stopped
    ∧ (step cfg s Act.stop).workers = s.workers
    ∧ (step cfg s Act.stop).timers = s.timers
    ∧ (step cfg s Act.stop).activeRequests = s.activeRequests
    ∧ (runStateOf s = RunState.running →
        runStateOf (step cfg s Act.pause) = RunState.paused)
    ∧ (runStateOf s = RunState.paused →
        runStateOf (step cfg s Act.resume) = RunState.running
        ∧ (step cfg s Act.resume).drains = s.drains ++ [DrainCo.guard])
    ∧ (runStateOf s ≠ RunState.paused → step cfg s Act.resume = s) := by
  cases hA : s.active <;> cases hP : s.paused <;>
    simp [step, runStateOf, hA, hP]

/-- C8 witness: start from `Idle`, pause from `Running`, resume from
`Paused` (with the drain loop re-invoked), and resume as a no-op on an
`Idle` crawler. -/
theorem C8_witness :
    runStateOf (step defaultConfig initState Act.start) = RunState.running
    ∧ runStateOf (step defaultConfig (run defaultConfig [Act.start]) Act.pause)
        = RunState.paused
    ∧ runStateOf (step defaultConfig pausedState Act.resume) = RunState.running
    ∧ (step defaultConfig pausedState Act.resume).drains
        = pausedState.drains ++ [DrainCo.guard]
    ∧ step defaultConfig initState Act.resume = initState := by
  have h0 := C8_lifecycle defaultConfig initState
  have h1 := C8_lifecycle defaultConfig (run defaultConfig [Act.start])
  have h2 := C8_lifecycle defaultConfig pausedState
  refine ⟨(h0.1 (by decide)).1,
    h1.2.2.2.2.2.2.1 (by decide),
    (h2.2.2.2.2.2.2.2.1 (by decide)).1,
    (h2.2.2.2.2.2.2.2.1 (by decide)).2,
    h0.2.2.2.2.2.2.2.2 (by decide)⟩

/-- C9: the options assembly in `fetchUrl` is a pure total function whose
result has method GET; whose header mapping is the configured mapping with
a single `Cookie` entry overriding any configured `Cookie` and set to the
configured cookie string (the empty string, hence an empty cookie header,
when unset); and whose proxy is absent when the proxy is unset (the falsy
empty string, the default), the configured address when it is a nonempty
scalar, and the element at the drawn random index when it is a list of
nonempty addresses (the index `Math.floor(Math.random() * length)` is
uniform over positions for uniform `Math.random()`). -/
theorem C9_request_builder (hdrs : String → Option String) (cookies : String)
    (i : Nat) :
    (∀ p : ProxyCfg, (buildOptions hdrs cookies p i).method = "GET"
        ∧ (buildOptions hdrs cookies p i).headers "Cookie" = some cookies
        ∧ ∀ k : String, k ≠ "Cookie" →
            (buildOptions hdrs cookies p i).headers k = hdrs k)
    ∧ (buildOptions hdrs cookies (ProxyCfg.str "") i).proxy = none
    ∧ (∀ a : String, a ≠ "" →
        (buildOptions hdrs cookies (ProxyCfg.str a) i).proxy = some a)
    ∧ (∀ l : List String, (∀ a ∈ l, a ≠ "") → i < l.length →
        (buildOptions hdrs cookies (ProxyCfg.list l) i).proxy = l.get? i) := by
  refine ⟨?_, ?_, ?_, ?_⟩
  · intro p
    refine ⟨?_, ?_, ?_⟩
    · cases p with
      | str a => by_cases h : a = "" <;> simp [buildOptions, h]
      | list l =>
          cases hk : l[i]? with
          | none => simp [buildOptions, hk]
          | some p2 => by_cases h : p2 = "" <;> simp [buildOptions, hk, h]
    · cases p with
      | str a => by_cases h : a = "" <;> simp [buildOptions, h]
      | list l =>
          cases hk : l[i]? with
          | none => simp [buildOptions, hk]
          | some p2 => by_cases h : p2 = "" <;> simp [buildOptions, hk, h]
    · intro k hk
      cases p with
      | str a => by_cases h : a = "" <;> simp [buildOptions, h, hk]
      | list l =>
          cases hl : l[i]? with
          | none => simp [buildOptions, hl, hk]
          | some p2 => by_cases h : p2 = "" <;> simp [buildOptions, hl, h, hk]
  · simp [buildOptions]
  · intro a ha
    simp [buildOptions, ha]
  · intro l hl hi
    have hk : l[i]? = some l[i] := List.getElem?_eq_getElem hi
    have hne : l[i] ≠ "" := hl _ (l.getElem_mem hi)
    simp [buildOptions, hk, hne]

/-- C9 witness: a concrete header mapping, cookie string and two-element
proxy list with random index 0. -/
theorem C9_witness :
    (buildOptions (fun k => if k = "u" then some "1" else none) "c"
        (ProxyCfg.list ["p", "q"]) 0).proxy = some "p"
    ∧ (buildOptions (fun k => if k = "u" then some "1" else none) "c"
        (ProxyCfg.list ["p", "q"]) 0).headers "Cookie" = some "c"
    ∧ (buildOptions (fun k => if k = "u" then some "1" else none) "c"
        (ProxyCfg.list ["p", "q"]) 0).headers "u" = some "1"
    ∧ (buildOptions (fun k => if k = "u" then some "1" else none) "c"
        (ProxyCfg.str "p") 0).proxy = some "p" := by
  have h := C9_request_builder (fun k => if k = "u" then some "1" else none) "c" 0
  refine ⟨?_, (h.1 (ProxyCfg.list ["p", "q"])).2.1, ?_, h.2.2.1 "p" (by decide)⟩
  · have h4 := h.2.2.2 ["p", "q"] (by decide) (by decide)
    exact h4.trans rfl
  · have h3 := (h.1 (ProxyCfg.list ["p", "q"])).2.2 "u" (by decide)
    exact h3.trans rfl

/-- C4: when a slot-holding worker's fetch fails with retry budget left, the
very same transition that schedules the retry timer also completes the
worker: it is removed from the outstanding calls, `activeRequests` is
decremented, and the only recorded event is the scheduling of the retry -
the retry is not awaited.  Moreover firing a retry timer never consumes a
slot (`activeRequests` unchanged), and completing a detached retry worker
releases no slot, re-invokes no drain loop, and reports through exactly the
same hooks (`completeEvents`) as any worker. -/
theorem C4_retry_not_awaited (cfg : Config) (s : GState) (j : Nat)
    (u : String) (r : Nat) (isErr : Bool)
    (hw : s.workers.get? j = some { url := u, retriesLeft := r + 1, slot := true }) :
    ((step cfg s (Act.complete j (FetchOutcome.fail isErr))).activeRequests
        = s.activeRequests - 1
      ∧ (step cfg s (Act.complete j (FetchOutcome.fail isErr))).workers
          = s.workers.eraseIdx j
      ∧ (step cfg s (Act.complete j (FetchOutcome.fail isErr))).timers
          = s.timers ++ [(u, r)]
      ∧ (step cfg s (Act.complete j (FetchOutcome.fail isErr))).events
          = s.events ++ [Event.retrySched u 1000])
    ∧ (∀ k : Nat, (step cfg s (Act.fire k)).activeRequests = s.activeRequests)
    ∧ (∀ (j2 : Nat) (u2 : String) (r2 : Nat) (oc : FetchOutcome),
        s.workers.get? j2 = some { url := u2, retriesLeft := r2, slot := false } →
          (step cfg s (Act.complete j2 oc)).activeRequests = s.activeRequests
          ∧ (step cfg s (Act.complete j2 oc)).events
              = s.events ++ (completeEvents
                  { url := u2, retriesLeft := r2, slot := false } oc).1
          ∧ (step cfg s (Act.complete j2 oc)).drains = s.drains) := by
  refine ⟨?_, ?_, ?_⟩
  · simp only [step, completeStep, hw, completeEvents, failHandling]
    split
    · split
      · exact ⟨rfl, rfl, rfl, rfl⟩
      · exact ⟨rfl, rfl, rfl, rfl⟩
    · next hfalse => exact absurd trivial hfalse
  · intro k
    simp only [step, fireStep]
    cases hk : s.timers.get? k <;> simp
  · intro j2 u2 r2 oc hw2
    simp only [step, completeStep, hw2]
    exact ⟨rfl, rfl, rfl⟩

/-- C4 witness: the concrete state with one slot-holding worker for "a"
carrying retry budget 1, failing with an `Error`: the slot is released in
the scheduling step, and firing the timer does not change the counter. -/
theorem C4_witness :
    (step retryConfig retryState (Act.complete 0 (FetchOutcome.fail true))).activeRequests
        = retryState.activeRequests - 1
    ∧ (step retryConfig retryState (Act.complete 0 (FetchOutcome.fail true))).timers
        = retryState.timers ++ [("a", 0)]
    ∧ (step retryConfig retryState (Act.fire 0)).activeRequests
        = retryState.activeRequests := by
  have h := C4_retry_not_awaited retryConfig retryState 0 "a" 0 true (by decide)
  exact ⟨h.1.1, h.1.2.2.1, h.2.1 0⟩

theorem countEv_single (e x : Event) : countEv e [x] = if x = e then 1 else 0 := by
  by_cases h : x = e
  · subst h; rw [countEv_cons_self, countEv_nil, if_pos rfl]
  · rw [countEv_cons_ne _ _ _ h, countEv_nil, if_neg h]

theorem countEv_append_ne (e x : Event) (l : List Event) (h : x ≠ e) :
    countEv e (l ++ [x]) = countEv e l := by
  rw [countEv_append, countEv_single, if_neg h, Nat.add_zero]

theorem touchCount_append_single_ne (u : String) (l : List Event) (e : Event)
    (h1 : e ≠ Event.fetchStart u) (h2 : e ≠ Event.itemCall u)
    (h3 : e ≠ Event.errorCall u) :
    touchCount u (l ++ [e]) = touchCount u l := by
  unfold touchCount
  rw [countEv_append_ne _ _ _ h1, countEv_append_ne _ _ _ h2,
    countEv_append_ne _ _ _ h3]

theorem touchCount_completeEvents (u : String) (w : Worker) (oc : FetchOutcome)
    (h : w.url ≠ u) : touchCount u (completeEvents w oc).1 = 0 := by
  obtain ⟨wu, wr, ws⟩ := w
  simp only [Worker.url] at h
  rcases oc with po | isErr
  · rcases po with _ | isErr2
    · simp [completeEvents, touchCount, countEv, h]
    · cases wr <;> cases isErr2 <;>
        simp [completeEvents, failHandling, touchCount, countEv, h]
  · cases wr <;> cases isErr <;>
      simp [completeEvents, failHandling, touchCount, countEv, h]

theorem countEv_fetchStart_completeEvents (u : String) (w : Worker)
    (oc : FetchOutcome) :
    countEv (Event.fetchStart u) (completeEvents w oc).1 = 0 := by
  obtain ⟨wu, wr, ws⟩ := w
  rcases oc with po | isErr
  · rcases po with _ | isErr2
    · simp [completeEvents, countEv]
    · cases wr <;> cases isErr2 <;>
        simp [completeEvents, failHandling, countEv]
  · cases wr <;> cases isErr <;>
      simp [completeEvents, failHandling, countEv]

theorem completeEvents_timer (w : Worker) (oc : FetchOutcome) :
    (completeEvents w oc).2 = none
    ∨ ∃ r2 : Nat, (completeEvents w oc).2 = some (w.url, r2) := by
  obtain ⟨wu, wr, ws⟩ := w
  rcases oc with po | isErr
  · rcases po with _ | isErr2
    · exact Or.inl rfl
    · cases wr with
      | zero => exact Or.inl (by simp [completeEvents, failHandling])
      | succ n => exact Or.inr ⟨n, by simp [completeEvents, failHandling]⟩
  · cases wr with
    | zero => cases isErr <;> exact Or.inl (by simp [completeEvents, failHandling])
    | succ n => exact Or.inr ⟨n, by simp [completeEvents, failHandling]⟩

theorem forall_mem_set {α : Type} (P : α → Prop) (l : List α) (i : Nat) (v : α)
    (hl : ∀ x ∈ l, P x) (hv : P v) : ∀ x ∈ l.set i v, P x := by
  intro x hx
  rcases List.mem_or_eq_of_mem_set hx with h | h
  · exact hl x h
  · exact h ▸ hv

theorem forall_mem_eraseIdx {α : Type} (P : α → Prop) (l : List α) (i : Nat)
    (hl : ∀ x ∈ l, P x) : ∀ x ∈ l.eraseIdx i, P x := by
  intro x hx
  exact hl x ((List.eraseIdx_sublist l i).subset hx)

theorem forall_mem_append_single {α : Type} (P : α → Prop) (l : List α) (v : α)
    (hl : ∀ x ∈ l, P x) (hv : P v) : ∀ x ∈ l ++ [v], P x := by
  intro x hx
  rcases List.mem_append.1 hx with h | h
  · exact hl x h
  · rw [List.mem_singleton] at h
    exact h ▸ hv

theorem of_guardHolds (cfg : Config) (s : GState) (h : guardHolds cfg s = true) :
    s.activeRequests < cfg.concurrency := by
  simp only [guardHolds, Bool.and_eq_true, decide_eq_true_eq] at h
  exact h.1.2

theorem guardHolds_of_paused (cfg : Config) (s : GState) (h : s.paused = true) :
    guardHolds cfg s = false := by
  simp [guardHolds, h]

theorem gateBlocked_step (cfg : Config) (u : String) (s : GState) (a : Act)
    (hg : cfg.gate u = false)
    (hw : ∀ w ∈ s.workers, w.url ≠ u)
    (ht : ∀ t ∈ s.timers, t.1 ≠ u) :
    (∀ w ∈ (step cfg s a).workers, w.url ≠ u)
    ∧ (∀ t ∈ (step cfg s a).timers, t.1 ≠ u)
    ∧ touchCount u (step cfg s a).events = touchCount u s.events := by
  cases a with
  | drain i =>
      simp only [step, checkQueueStep]
      split
      · exact ⟨hw, ht, rfl⟩
      · exact ⟨hw, ht, rfl⟩
      · next v heq =>
          split
          · next hgv =>
              have hv : v ≠ u := fun hvu => by
                rw [hvu, hg] at hgv
                exact Bool.false_ne_true hgv
              refine ⟨forall_mem_append_single _ _ _ hw hv, ht, ?_⟩
              exact touchCount_append_single_ne u s.events (Event.fetchStart v)
                (by simp [hv]) (by simp) (by simp)
          · exact ⟨hw, ht,
              touchCount_append_single_ne u s.events (Event.blocked v)
                (by simp) (by simp) (by simp)⟩
      · split
        · split
          · exact ⟨hw, ht, rfl⟩
          · split
            · exact ⟨hw, ht,
                touchCount_append_single_ne u s.events Event.endCall
                  (by simp) (by simp) (by simp)⟩
            · exact ⟨hw, ht, rfl⟩
        · exact ⟨hw, ht, rfl⟩
  | complete j oc =>
      simp only [step, completeStep]
      split
      · exact ⟨hw, ht, rfl⟩
      · next w heq =>
          have hwu : w.url ≠ u := hw w (List.get?_mem heq)
          have hworkers : ∀ x ∈ s.workers.eraseIdx j, x.url ≠ u :=
            forall_mem_eraseIdx _ _ _ hw
          have htimers : ∀ t2 ∈ s.timers ++ (match (completeEvents w oc).2 with
              | none => ([] : List (String × Nat))
              | some t => [t]), t2.1 ≠ u := by
            rcases completeEvents_timer w oc with h2 | ⟨r2, h2⟩
            · rw [h2]
              simpa using ht
            · rw [h2]
              exact forall_mem_append_single _ _ _ ht hwu
          have hev : touchCount u (s.events ++ (completeEvents w oc).1)
              = touchCount u s.events := by
            rw [touchCount_append, touchCount_completeEvents u w oc hwu,
              Nat.add_zero]
          split
          · split
            · exact ⟨hworkers, htimers, hev⟩
            · exact ⟨hworkers, htimers, hev⟩
          · exact ⟨hworkers, htimers, hev⟩
  | fire k =>
      simp only [step, fireStep]
      split
      · exact ⟨hw, ht, rfl⟩
      · next t heq =>
          have htu : t.1 ≠ u := ht t (List.get?_mem heq)
          refine ⟨forall_mem_append_single _ _ _ hw htu,
            forall_mem_eraseIdx _ _ _ ht,
            touchCount_append_single_ne u s.events (Event.fetchStart t.1)
              (by simp [htu]) (by simp) (by simp)⟩
  | addTask v =>
      simp only [step]
      split
      · exact ⟨hw, ht, rfl⟩
      · exact ⟨hw, ht, rfl⟩
  | start =>
      simp only [step]
      split
      · exact ⟨hw, ht, rfl⟩
      · exact ⟨hw, ht, rfl⟩
  | stop => exact ⟨hw, ht, rfl⟩
  | pause => exact ⟨hw, ht, rfl⟩
  | resume =>
      simp only [step]
      split
      · exact ⟨hw, ht, rfl⟩
      · exact ⟨hw, ht, rfl⟩

theorem gateBlocked_runFrom (cfg : Config) (u : String) (acts : List Act)
    (hg : cfg.gate u = false) :
    ∀ s : GState, (∀ w ∈ s.workers, w.url ≠ u) → (∀ t ∈ s.timers, t.1 ≠ u) →
      touchCount u (runFrom cfg s acts).events = touchCount u s.events := by
  induction acts with
  | nil => intro s _ _; rfl
  | cons a rest ih =>
      intro s hw ht
      obtain ⟨hw2, ht2, hev⟩ := gateBlocked_step cfg u s a hg hw ht
      rw [runFrom, ih (step cfg s a) hw2 ht2, hev]

/-- C6: when the pre-request gate resolves `false` for a popped identifier,
that very transition only logs the block and loops: the queue, the
`inFlight` counter, the outstanding calls and the timers are unchanged, the
identifier is not re-enqueued, and the invocation returns to the guard
(continuing the drain loop); moreover, in any continuation of the run, no
network call, item-processor invocation or error-handler invocation ever
occurs for that identifier (given none was already underway). -/
theorem C6_gate_rejection (cfg : Config) (u : String) (s : GState) (i : Nat)
    (hg : cfg.gate u = false)
    (hd : s.drains.get? i = some (DrainCo.gate u))
    (hw : ∀ w ∈ s.workers, w.url ≠ u)
    (ht : ∀ t ∈ s.timers, t.1 ≠ u) :
    step cfg s (Act.drain i)
      = { s with drains := s.drains.set i DrainCo.guard,
                 events := s.events ++ [Event.blocked u] }
    ∧ ∀ acts : List Act,
        touchCount u (runFrom cfg s acts).events = touchCount u s.events := by
  refine ⟨?_, fun acts => gateBlocked_runFrom cfg u acts hg s hw ht⟩
  have hd2 : s.drains[i]? = some (DrainCo.gate u) := by
    rw [← List.get?_eq_getElem?]
    exact hd
  simp [step, checkQueueStep, hd2, hg]

/-- C6 witness: the crawler suspended at the gate for the vetoed identifier
"x": the rejection step only logs, and two further drain steps produce no
fetch, item or error event for "x". -/
theorem C6_witness :
    step blockConfig blockState (Act.drain 0)
      = { blockState with drains := blockState.drains.set 0 DrainCo.guard,
                          events := blockState.events ++ [Event.blocked "x"] }
    ∧ touchCount "x" (runFrom blockConfig blockState
        [Act.drain 0, Act.drain 0]).events = touchCount "x" blockState.events := by
  have h := C6_gate_rejection blockConfig "x" blockState 0 (by decide) (by decide)
    (by decide) (by decide)
  exact ⟨h.1, h.2 [Act.drain 0, Act.drain 0]⟩

theorem pausedSafe_step (cfg : Config) (u : String) (s : GState) (a : Act)
    (ha1 : a ≠ Act.start) (ha2 : a ≠ Act.resume) (h : PausedSafe u s) :
    PausedSafe u (step cfg s a)
    ∧ countEv (Event.fetchStart u) (step cfg s a).events
        = countEv (Event.fetchStart u) s.events := by
  obtain ⟨hp, hu, hdr, hw, ht⟩ := h
  cases a with
  | drain i =>
      simp only [step, checkQueueStep]
      split
      · exact ⟨⟨hp, hu, hdr, hw, ht⟩, rfl⟩
      · refine ⟨⟨hp, hu, forall_mem_set _ _ _ _ hdr (by simp), hw, ht⟩, rfl⟩
      · next v heq =>
          have hv : v ≠ u := fun hvu => hdr _ (List.get?_mem heq) (by rw [hvu])
          split
          · refine ⟨⟨hp, hu, forall_mem_set _ _ _ _ hdr (by simp),
              forall_mem_append_single _ _ _ hw hv, ht⟩, ?_⟩
            exact countEv_append_ne _ _ _ (by simp [hv])
          · refine ⟨⟨hp, hu, forall_mem_set _ _ _ _ hdr (by simp), hw, ht⟩, ?_⟩
            exact countEv_append_ne _ _ _ (by simp)
      · rw [guardHolds_of_paused cfg s hp,
          if_neg (by decide : ¬ (false = true))]
        exact ⟨⟨hp, hu, forall_mem_eraseIdx _ _ _ hdr, hw, ht⟩, rfl⟩
  | complete j oc =>
      simp only [step, completeStep]
      split
      · exact ⟨⟨hp, hu, hdr, hw, ht⟩, rfl⟩
      · next w heq =>
          have hwu : w.url ≠ u := hw w (List.get?_mem heq)
          have hworkers : ∀ x ∈ s.workers.eraseIdx j, x.url ≠ u :=
            forall_mem_eraseIdx _ _ _ hw
          have htimers : ∀ t2 ∈ s.timers ++ (match (completeEvents w oc).2 with
              | none => ([] : List (String × Nat))
              | some t => [t]), t2.1 ≠ u := by
            rcases completeEvents_timer w oc with h2 | ⟨r2, h2⟩
            · rw [h2]
              simpa using ht
            · rw [h2]
              exact forall_mem_append_single _ _ _ ht hwu
          have hev : countEv (Event.fetchStart u)
              (s.events ++ (completeEvents w oc).1)
              = countEv (Event.fetchStart u) s.events := by
            rw [countEv_append, countEv_fetchStart_completeEvents, Nat.add_zero]
          split
          · split
            · exact ⟨⟨hp, hu, forall_mem_append_single _ _ _ hdr (by simp),
                hworkers, htimers⟩, hev⟩
            · exact ⟨⟨hp, hu, hdr, hworkers, htimers⟩, hev⟩
          · exact ⟨⟨hp, hu, hdr, hworkers, htimers⟩, hev⟩
  | fire k =>
      simp only [step, fireStep]
      split
      · exact ⟨⟨hp, hu, hdr, hw, ht⟩, rfl⟩
      · next t heq =>
          have htu : t.1 ≠ u := ht t (List.get?_mem heq)
          refine ⟨⟨hp, hu, hdr, forall_mem_append_single _ _ _ hw htu,
            forall_mem_eraseIdx _ _ _ ht⟩, ?_⟩
          exact countEv_append_ne _ _ _ (by simp [htu])
  | addTask v =>
      simp only [step]
      have huq : u ∈ unique (s.taskQueue ++ [v]) :=
        (mem_unique _ u).2 (List.mem_append.2 (Or.inl hu))
      split
      · exact ⟨⟨hp, huq, forall_mem_append_single _ _ _ hdr (by simp), hw, ht⟩,
          rfl⟩
      · exact ⟨⟨hp, huq, hdr, hw, ht⟩, rfl⟩
  | start => exact absurd rfl ha1
  | stop => exact ⟨⟨hp, hu, hdr, hw, ht⟩, rfl⟩
  | pause => exact ⟨⟨rfl, hu, hdr, hw, ht⟩, rfl⟩
  | resume => exact absurd rfl ha2

theorem pausedSafe_runFrom (cfg : Config) (u : String) (acts : List Act) :
    ∀ s : GState, PausedSafe u s →
      (∀ a ∈ acts, a ≠ Act.start ∧ a ≠ Act.resume) →
      PausedSafe u (runFrom cfg s acts)
      ∧ countEv (Event.fetchStart u) (runFrom cfg s acts).events
          = countEv (Event.fetchStart u) s.events := by
  induction acts with
  | nil => intro s h _; exact ⟨h, rfl⟩
  | cons a rest ih =>
      intro s h hacts
      obtain ⟨ha1, ha2⟩ := hacts a (List.mem_cons_self a rest)
      obtain ⟨h2, hev⟩ := pausedSafe_step cfg u s a ha1 ha2 h
      obtain ⟨h3, hev2⟩ := ih (step cfg s a) h2
        (fun b hb => hacts b (List.mem_cons_of_mem a hb))
      rw [runFrom]
      exact ⟨h3, hev2.trans hev⟩

/-- C7: while the crawler stays paused (no `resume()` and no `start()`
among the scheduled actions), an identifier appended while `Paused` remains
in the pending queue, is never dispatched (no network call for it starts),
`getTaskCount()` keeps counting it, and the crawler remains paused; and
`resume()` on an active paused crawler clears `paused` and re-invokes the
drain loop, so pending tasks become dispatchable. -/
theorem C7_paused_not_dispatched (cfg : Config) (u : String) (s : GState)
    (acts : List Act)
    (hp : s.paused = true) (hu : u ∈ s.taskQueue)
    (hdr : ∀ c ∈ s.drains, c ≠ DrainCo.gate u)
    (hw : ∀ w ∈ s.workers, w.url ≠ u)
    (ht : ∀ t ∈ s.timers, t.1 ≠ u)
    (hacts : ∀ a ∈ acts, a ≠ Act.start ∧ a ≠ Act.resume) :
    u ∈ (runFrom cfg s acts).taskQueue
    ∧ countEv (Event.fetchStart u) (runFrom cfg s acts).events
        = countEv (Event.fetchStart u) s.events
    ∧ (runFrom cfg s acts).paused = true
    ∧ 0 < getTaskCount (runFrom cfg s acts)
    ∧ (∀ s2 : GState, s2.active = true → s2.paused = true →
        (step cfg s2 Act.resume).paused = false
        ∧ (step cfg s2 Act.resume).drains = s2.drains ++ [DrainCo.guard]) := by
  obtain ⟨⟨hp2, hu2, _, _, _⟩, hev⟩ :=
    pausedSafe_runFrom cfg u acts s ⟨hp, hu, hdr, hw, ht⟩ hacts
  refine ⟨hu2, hev, hp2, ?_, ?_⟩
  · rw [getTaskCount]
    exact List.length_pos.2 (List.ne_nil_of_mem hu2)
  · intro s2 hA hP
    simp [step, hA, hP]

/-- C7 witness: identifier "a" appended while paused survives two drain
steps, a worker-free completion attempt and a further append, with no fetch
started and the count positive; resume on that state clears `paused` and
appends a drain invocation. -/
theorem C7_witness :
    "a" ∈ (runFrom defaultConfig pausedState
        [Act.drain 0, Act.drain 1, Act.addTask "b", Act.stop]).taskQueue
    ∧ countEv (Event.fetchStart "a") (runFrom defaultConfig pausedState
        [Act.drain 0, Act.drain 1, Act.addTask "b", Act.stop]).events
        = countEv (Event.fetchStart "a") pausedState.events
    ∧ 0 < getTaskCount (runFrom defaultConfig pausedState
        [Act.drain 0, Act.drain 1, Act.addTask "b", Act.stop])
    ∧ (step defaultConfig pausedState Act.resume).paused = false := by
  have h := C7_paused_not_dispatched defaultConfig "a" pausedState
    [Act.drain 0, Act.drain 1, Act.addTask "b", Act.stop]
    (by decide) (by decide) (by decide) (by decide) (by decide) (by decide)
  exact ⟨h.1, h.2.1, h.2.2.2.1,
    (h.2.2.2.2 pausedState (by decide) (by decide)).1⟩

theorem countP_append_guard (l : List DrainCo) :
    (l ++ [DrainCo.guard]).countP isGate = l.countP isGate := by
  simp [List.countP_cons, isGate]

theorem invBound_step (cfg : Config) (s : GState) (a : Act)
    (h : InvBound cfg s) (hgc : gateCount s ≤ 1) :
    InvBound cfg (step cfg s a) := by
  obtain ⟨h1, h2⟩ := h
  simp only [gateCount] at h2 hgc
  cases a with
  | drain i =>
      simp only [step, checkQueueStep]
      split
      · exact ⟨h1, h2⟩
      · next heq =>
          have he : (s.drains.set i DrainCo.guard).countP isGate
              = s.drains.countP isGate := by
            have hc := countP_set_eq isGate s.drains i DrainCo.guard
              DrainCo.sleeping heq
            simpa [isGate] using hc
          refine ⟨h1, ?_⟩
          intro hg1
          simp only [gateCount] at hg1
          exact h2 (by omega)
      · next v heq =>
          have hge1 : 1 ≤ s.drains.countP isGate :=
            List.one_le_countP_iff.2 ⟨DrainCo.gate v, List.get?_mem heq,
              by simp [isGate]⟩
          have haR : s.activeRequests < cfg.concurrency := h2 hge1
          have he : (s.drains.set i DrainCo.guard).countP isGate + 1
              = s.drains.countP isGate := by
            have hc := countP_set_eq isGate s.drains i DrainCo.guard
              (DrainCo.gate v) heq
            simpa [isGate] using hc
          split
          · refine ⟨by show s.activeRequests + 1 ≤ cfg.concurrency; omega, ?_⟩
            intro hg1
            simp only [gateCount] at hg1
            show s.activeRequests + 1 < cfg.concurrency
            omega
          · refine ⟨h1, ?_⟩
            intro hg1
            simp only [gateCount] at hg1
            show s.activeRequests < cfg.concurrency
            omega
      · next heq =>
          have he : (s.drains.eraseIdx i).countP isGate
              = s.drains.countP isGate := by
            have hc := countP_eraseIdx_eq isGate s.drains i DrainCo.guard heq
            simpa [isGate] using hc
          split
          · next hgu =>
              have haR : s.activeRequests < cfg.concurrency :=
                of_guardHolds cfg s hgu
              split
              · refine ⟨h1, ?_⟩
                intro hg1
                simp only [gateCount] at hg1
                exact h2 (by omega)
              · split
                · next u2 rest hq hu2 =>
                    have he2 : (s.drains.set i DrainCo.sleeping).countP isGate
                        = s.drains.countP isGate := by
                      have hc := countP_set_eq isGate s.drains i
                        DrainCo.sleeping DrainCo.guard heq
                      simpa [isGate] using hc
                    refine ⟨h1, ?_⟩
                    intro hg1
                    simp only [gateCount] at hg1
                    exact h2 (by omega)
                · exact ⟨h1, fun _ => haR⟩
          · refine ⟨h1, ?_⟩
            intro hg1
            simp only [gateCount] at hg1
            exact h2 (by omega)
  | complete j oc =>
      simp only [step, completeStep]
      split
      · exact ⟨h1, h2⟩
      · next w heq =>
          split
          · split
            · refine ⟨by show s.activeRequests - 1 ≤ cfg.concurrency; omega, ?_⟩
              intro hg1
              simp only [gateCount] at hg1
              rw [countP_append_guard] at hg1
              have haR := h2 hg1
              show s.activeRequests - 1 < cfg.concurrency
              omega
            · refine ⟨by show s.activeRequests - 1 ≤ cfg.concurrency; omega, ?_⟩
              intro hg1
              simp only [gateCount] at hg1
              have haR := h2 hg1
              show s.activeRequests - 1 < cfg.concurrency
              omega
          · exact ⟨h1, h2⟩
  | fire k =>
      simp only [step, fireStep]
      split
      · exact ⟨h1, h2⟩
      · exact ⟨h1, h2⟩
  | addTask v =>
      simp only [step]
      split
      · refine ⟨h1, ?_⟩
        intro hg1
        simp only [gateCount] at hg1
        rw [countP_append_guard] at hg1
        exact h2 hg1
      · exact ⟨h1, h2⟩
  | start =>
      simp only [step]
      split
      · exact ⟨h1, h2⟩
      · refine ⟨h1, ?_⟩
        intro hg1
        simp only [gateCount] at hg1
        rw [countP_append_guard] at hg1
        exact h2 hg1
  | stop => exact ⟨h1, h2⟩
  | pause => exact ⟨h1, h2⟩
  | resume =>
      simp only [step]
      split
      · refine ⟨h1, ?_⟩
        intro hg1
        simp only [gateCount] at hg1
        rw [countP_append_guard] at hg1
        exact h2 hg1
      · exact ⟨h1, h2⟩

theorem invBound_runFrom (cfg : Config) (acts : List Act) :
    ∀ s : GState, InvBound cfg s →
      (∀ n, n ≤ acts.length →
        gateCount (runFrom cfg s (acts.take n)) ≤ 1) →
      InvBound cfg (runFrom cfg s acts) := by
  induction acts with
  | nil => intro s h _; exact h
  | cons a rest ih =>
      intro s h hseq
      have hg0 : gateCount s ≤ 1 := by
        have := hseq 0 (Nat.zero_le _)
        simpa [runFrom] using this
      rw [runFrom]
      apply ih (step cfg s a) (invBound_step cfg s a h hg0)
      intro n hn
      have := hseq (n + 1) (Nat.succ_le_succ hn)
      simpa [runFrom, List.take_succ_cons] using this

/-- C2 (amended): the concurrency bound holds only when pre-request gate
evaluations never overlap.  For every schedule in which at most one drain
invocation is suspended at the gate at every point of the run, the
`inFlight` counter never exceeds the configured limit at the end (and, the
hypothesis applying to every prefix, at every point).  With overlapping
gate suspensions the bound fails, because the guard is checked before the
`await` of the gate and the increment happens after it - see the
counterexample reaching 2 outstanding calls under limit 1. -/
theorem C2_amended_serial_gate_bound (cfg : Config) (acts : List Act)
    (hseq : ∀ n, n ≤ acts.length →
      gateCount (runFrom cfg initState (acts.take n)) ≤ 1) :
    (run cfg acts).activeRequests ≤ cfg.concurrency := by
  have hinit : InvBound cfg initState := by
    refine ⟨Nat.zero_le _, ?_⟩
    intro hg1
    simp [gateCount, initState] at hg1
  exact (invBound_runFrom cfg acts initState hinit hseq).1

/-- C2 amended witness: the fully sequential schedule dispatching "a" with
limit 1 keeps at most one gate suspension at every prefix and ends with the
counter within the limit. -/
theorem C2_amended_witness :
    (run defaultConfig [Act.addTask "a", Act.start, Act.drain 0, Act.drain 0,
      Act.drain 0]).activeRequests ≤ defaultConfig.concurrency :=
  C2_amended_serial_gate_bound defaultConfig
    [Act.addTask "a", Act.start, Act.drain 0, Act.drain 0, Act.drain 0]
    (by decide)
